import Mathlib

/-!
Verification development for the story-quest interactive fiction client.
The definitions below are shallow embeddings of the story-state reducer,
the response parsers, the persistence layer and the streaming decoder of
the repository (StoryGame.tsx and LLMUtils.ts). Strings are Lean strings,
JavaScript numbers that hold timestamps are Int, fallible operations
return Except or Option, and the single external chat service is modelled
by passing its observed outcome as an argument.
-/

namespace StoryQuest

/-- Whitespace test used to model the JavaScript trim and the regex class
of blank characters, on the character set the application handles. -/
def jsWhitespace (c : Char) : Bool :=
  c = ' ' || c = '\t' || c = '\n' || c = '\r' || c = '\x0b' || c = '\x0c'

/-- Trim on character lists: drop whitespace from both ends. -/
def jsTrimList (cs : List Char) : List Char :=
  ((cs.dropWhile jsWhitespace).reverse.dropWhile jsWhitespace).reverse

/-- Model of the JavaScript String.trim method. -/
def jsTrim (s : String) : String :=
  String.mk (jsTrimList s.data)

/-- Model of the JavaScript toUpperCase on the ASCII range. -/
def jsToUpper (s : String) : String :=
  String.mk (s.data.map Char.toUpper)

/-- Model of the JavaScript toLowerCase on the ASCII range. -/
def jsToLower (s : String) : String :=
  String.mk (s.data.map Char.toLower)

/-- Case-insensitive literal match: pat is given in lowercase; on success
returns the matched characters as they occur in the input and the rest. -/
def matchCI : List Char → List Char → Option (List Char × List Char)
  | [], cs => some ([], cs)
  | _ :: _, [] => none
  | p :: ps, c :: cs =>
    if Char.toLower c = p then
      match matchCI ps cs with
      | some (m, r) => some (c :: m, r)
      | none => none
    else none

/-- First alternative of a list of case-insensitive literals that matches,
in the listed order, mirroring regex alternation. -/
def matchAnyCI : List (List Char) → List Char → Option (List Char × List Char)
  | [], _ => none
  | k :: ks, cs =>
    match matchCI k cs with
    | some r => some r
    | none => matchAnyCI ks cs

/-- The six ending keywords of the marker regex in generateNextStoryStep
(StoryGame.tsx), in alternation order. -/
def endingKeywords : List (List Char) :=
  [("game over").data, ("the end").data, ("adventure complete").data,
   ("victory").data, ("defeat").data, ("ending").data]

/-- The two capture alternatives for the ending polarity. -/
def posNegWords : List (List Char) :=
  [("positive").data, ("negative").data]

/-- Attempt to match the ending marker at the head of the input. The marker
is two asterisks, a keyword, a colon, optional whitespace, POSITIVE or
NEGATIVE, and two asterisks, all case-insensitive, as in the regex of
StoryGame.tsx line 283. On success returns the full matched text, the
polarity capture as it occurs in the input, and the rest of the input. -/
def markerAt (cs : List Char) : Option (List Char × List Char × List Char) :=
  match matchCI ("**").data cs with
  | none => none
  | some (s1, r1) =>
    match matchAnyCI endingKeywords r1 with
    | none => none
    | some (kw, r2) =>
      match matchCI (":").data r2 with
      | none => none
      | some (col, r3) =>
        let ws := r3.takeWhile jsWhitespace
        let r4 := r3.dropWhile jsWhitespace
        match matchAnyCI posNegWords r4 with
        | none => none
        | some (pn, r5) =>
          match matchCI ("**").data r5 with
          | none => none
          | some (s2, r6) =>
            some (s1 ++ (kw ++ (col ++ (ws ++ (pn ++ s2)))), pn, r6)

/-- Leftmost occurrence of the ending marker: returns the text before the
match, the matched text, the polarity capture and the text after. -/
def findMarker : List Char → Option (List Char × List Char × List Char × List Char)
  | [] => none
  | c :: rest =>
    match markerAt (c :: rest) with
    | some (m, cap, post) => some ([], m, cap, post)
    | none =>
      match findMarker rest with
      | some (pre, m, cap, post) => some (c :: pre, m, cap, post)
      | none => none

/-- Result of the ending scan that generateNextStoryStep performs on a
completed narrative response (StoryGame.tsx lines 281 to 308). -/
structure EndingExtract where
  gameEnded : Bool
  endingType : Option String
  endingMessage : String
  storyText : String
  deriving DecidableEq

/-- Embedding of the ending extraction of generateNextStoryStep: when the
marker regex matches, the ending type is the lowercased polarity capture,
the ending message is the trimmed text after the match and the story text
is the trimmed text before it; otherwise the whole trimmed response is the
story text. -/
def extractEnding (response : String) : EndingExtract :=
  match findMarker response.data with
  | none => ⟨false, none, "", jsTrim response⟩
  | some (pre, _, cap, post) =>
    ⟨true, some (String.mk (cap.map Char.toLower)),
     String.mk (jsTrimList post), String.mk (jsTrimList pre)⟩

/-- Test applied by generateStoryOptions (LLMUtils.ts line 300) to keep a
line: it starts with one or more digits followed by a dot, or with a
bullet or a dash. -/
def matchesOptionLine (line : String) : Bool :=
  let cs := line.data
  (decide (cs.takeWhile Char.isDigit ≠ []) &&
    decide ((cs.dropWhile Char.isDigit).head? = some '.')) ||
  decide (cs.head? = some '•') || decide (cs.head? = some '-')

/-- Replacement step of generateStoryOptions (LLMUtils.ts line 301): remove
a leading digits-plus-dot or bullet or dash marker together with the
whitespace after it; on a line with no such marker nothing changes. -/
def stripOptionMarker (line : String) : String :=
  let cs := line.data
  if cs.takeWhile Char.isDigit ≠ [] ∧ (cs.dropWhile Char.isDigit).head? = some '.' then
    String.mk (((cs.dropWhile Char.isDigit).tail).dropWhile jsWhitespace)
  else
    match cs with
    | '•' :: rest => String.mk (rest.dropWhile jsWhitespace)
    | '-' :: rest => String.mk (rest.dropWhile jsWhitespace)
    | _ => line

/-- Embedding of the option-parsing tail of generateStoryOptions
(LLMUtils.ts lines 297 to 306): split on newlines, drop blank lines, keep
lines with a numbered or bulleted marker, strip the marker and trim, drop
empty results and keep at most three. -/
def extractOptions (text : String) : List String :=
  let lines := (text.splitOn "\n").filter (fun l => jsTrim l ≠ "")
  ((((lines.filter (fun l => matchesOptionLine l)).map
      (fun l => jsTrim (stripOptionMarker l))).filter (fun o => o ≠ "")).take 3)

/-- Inventory item (StoryGame.tsx lines 6 to 12). The type field is kept as
a string because the TypeScript union is erased and unchecked at runtime. -/
structure Item where
  id : String
  name : String
  description : String
  type : String
  usable : Bool
  deriving DecidableEq

/-- One narrative turn (StoryGame.tsx lines 14 to 21). -/
structure StoryBeat where
  id : String
  storyText : String
  availableOptions : List String
  selectedOption : Option String
  itemsFound : List Item
  timestamp : Int
  deriving DecidableEq

/-- Game state of the component under verification (StoryGame.tsx lines
23 to 30). -/
structure GameState where
  storyBeats : List StoryBeat
  currentOptions : List String
  inventory : List Item
  gameEnded : Bool
  endingType : Option String
  endingMessage : String
  deriving DecidableEq

/-- The fresh state built on mount and on reset (StoryGame.tsx lines
33 to 40 and 469 to 476). -/
def initialGameState : GameState :=
  { storyBeats := [], currentOptions := [], inventory := [],
    gameEnded := false, endingType := none, endingMessage := "" }

/-- Commit of the new story beat after a successful narrative call
(StoryGame.tsx lines 310 to 327): append the beat built from the extracted
story text, clear the current options and record the ending fields. The
beat id and the clock reading are passed in as arguments. -/
def commitBeatState (st : GameState) (response : String) (bid : String) (now : Int) :
    GameState :=
  let ex := extractEnding response
  let newBeat : StoryBeat :=
    { id := bid, storyText := ex.storyText, availableOptions := [],
      selectedOption := none, itemsFound := [], timestamp := now }
  { st with storyBeats := st.storyBeats ++ [newBeat],
            currentOptions := [],
            gameEnded := ex.gameEnded,
            endingType := ex.endingType,
            endingMessage := ex.endingMessage }

/-- Attachment of found items to the most recent beat (StoryGame.tsx lines
357 to 362): when the beat list is empty nothing changes. -/
def updateLastBeatItems (beats : List StoryBeat) (items : List Item) : List StoryBeat :=
  match beats.getLast? with
  | none => beats
  | some b => beats.dropLast ++ [{ b with itemsFound := items }]

/-- Merge of a non-empty inventory delta (StoryGame.tsx lines 355 to 370):
the found items are written onto the last beat and appended to the
inventory; an empty delta changes nothing. -/
def commitItemsState (st : GameState) (items : List Item) : GameState :=
  if items.isEmpty then st
  else
    { st with storyBeats := updateLastBeatItems st.storyBeats items,
              inventory := st.inventory ++ items }

/-- The three fallback options installed when option generation throws
(StoryGame.tsx lines 374 to 381). -/
def fallbackOptions : List String :=
  ["Look around carefully for clues or items",
   "Continue forward cautiously",
   "Take a moment to think and plan your next move"]

/-- Secondary phase of generateNextStoryStep (StoryGame.tsx lines 336 to
383): inside one try block the generated options are committed and then
the item check runs and its non-empty delta is committed; when the options
call throws, control transfers to the catch block, which installs the
fallback options, so the item check never runs on that path. The outcome
of the options call and the delta the item check would report are passed
in as arguments. -/
def runFollowups (st : GameState) (optRes : Except Unit (List String))
    (items : List Item) : GameState :=
  match optRes with
  | Except.error _ => { st with currentOptions := fallbackOptions }
  | Except.ok opts => commitItemsState { st with currentOptions := opts } items

/-- Whole-turn embedding of generateNextStoryStep (StoryGame.tsx lines 268
to 391): a failed narrative call surfaces its message as the user-visible
error without touching the state; a successful one commits the beat, and
when the game has not ended runs the follow-up phase; no error is surfaced
on the success path. -/
def generateNextStoryStep (st : GameState) (narrativeRes : Except String String)
    (optRes : Except Unit (List String)) (items : List Item)
    (bid : String) (now : Int) : GameState × Option String :=
  match narrativeRes with
  | Except.error msg => (st, some msg)
  | Except.ok response =>
    let st1 := commitBeatState st response bid now
    if st1.gameEnded then (st1, none)
    else (runFollowups st1 optRes items, none)

/-- Retroactive recording of the chosen option on the last beat
(StoryGame.tsx lines 74 to 84). -/
def selectChoiceState (st : GameState) (choice : String) : GameState :=
  match st.storyBeats.getLast? with
  | none => st
  | some b =>
    { st with storyBeats := st.storyBeats.dropLast ++ [{ b with selectedOption := some choice }] }

/-- Embedding of handleItemUse (StoryGame.tsx lines 145 to 176): an
unusable item returns at once with no state change and no narrative call;
a consumable item is filtered out of the inventory by id before the
narrative call; any other usable item leaves the state unchanged. The
boolean reports whether the narrative call is issued. -/
def handleItemUse (st : GameState) (item : Item) : GameState × Bool :=
  if item.usable = false then (st, false)
  else if item.type = "consumable" then
    ({ st with inventory := st.inventory.filter (fun i => i.id ≠ item.id) }, true)
  else (st, true)

/-- JSON trees, the codomain of the JavaScript parse and stringify pair.
The string layer of that pair is a bijection on trees, so persistence is
modelled at the tree level. Numbers are restricted to integers, which is
exact for every value the application stores. -/
inductive Json where
  | null : Json
  | bool (b : Bool) : Json
  | num (n : Int) : Json
  | str (s : String) : Json
  | arr (xs : List Json) : Json
  | obj (fields : List (String × Json)) : Json

/-- Field lookup in a JSON object, first binding wins. -/
def jget (fields : List (String × Json)) (key : String) : Option Json :=
  (fields.find? (fun p => p.fst = key)).map (fun p => p.snd)

def jstr : Json → Option String
  | Json.str s => some s
  | _ => none

def jint : Json → Option Int
  | Json.num n => some n
  | _ => none

def jbool : Json → Option Bool
  | Json.bool b => some b
  | _ => none

def jarr : Json → Option (List Json)
  | Json.arr xs => some xs
  | _ => none

/-- Structural decoder for a JSON array whose elements decode with f. -/
def decodeList {a : Type} (f : Json → Option a) : List Json → Option (List a)
  | [] => some []
  | j :: js => do
    let x ← f j
    let xs ← decodeList f js
    pure (x :: xs)

/-- Serialization of an item, field for field as JSON.stringify writes it. -/
def itemToJson (it : Item) : Json :=
  Json.obj [("id", Json.str it.id), ("name", Json.str it.name),
            ("description", Json.str it.description), ("type", Json.str it.type),
            ("usable", Json.bool it.usable)]

def itemOfJson (j : Json) : Option Item :=
  match j with
  | Json.obj fs => do
    let id ← jget fs "id" >>= jstr
    let name ← jget fs "name" >>= jstr
    let description ← jget fs "description" >>= jstr
    let ty ← jget fs "type" >>= jstr
    let usable ← jget fs "usable" >>= jbool
    pure { id := id, name := name, description := description, type := ty, usable := usable }
  | _ => none

/-- Serialization of a beat. A missing selectedOption is dropped from the
object, as JSON.stringify drops undefined fields. -/
def beatToJson (b : StoryBeat) : Json :=
  Json.obj
    ([("id", Json.str b.id), ("storyText", Json.str b.storyText),
      ("availableOptions", Json.arr (b.availableOptions.map Json.str))] ++
     (match b.selectedOption with
      | none => []
      | some s => [("selectedOption", Json.str s)]) ++
     [("itemsFound", Json.arr (b.itemsFound.map itemToJson)),
      ("timestamp", Json.num b.timestamp)])

def beatOfJson (j : Json) : Option StoryBeat :=
  match j with
  | Json.obj fs => do
    let id ← jget fs "id" >>= jstr
    let storyText ← jget fs "storyText" >>= jstr
    let opts ← jget fs "availableOptions" >>= jarr
    let availableOptions ← decodeList jstr opts
    let selectedOption : Option String :=
      match jget fs "selectedOption" with
      | some (Json.str s) => some s
      | _ => none
    let found ← jget fs "itemsFound" >>= jarr
    let itemsFound ← decodeList itemOfJson found
    let timestamp ← jget fs "timestamp" >>= jint
    pure { id := id, storyText := storyText, availableOptions := availableOptions,
           selectedOption := selectedOption, itemsFound := itemsFound,
           timestamp := timestamp }
  | _ => none

/-- Serialization of the game state. The endingType field holds null when
absent, as in the component, so it is written as JSON null rather than
dropped. -/
def gameStateToJson (gs : GameState) : Json :=
  Json.obj
    [("storyBeats", Json.arr (gs.storyBeats.map beatToJson)),
     ("currentOptions", Json.arr (gs.currentOptions.map Json.str)),
     ("inventory", Json.arr (gs.inventory.map itemToJson)),
     ("gameEnded", Json.bool gs.gameEnded),
     ("endingType", match gs.endingType with
                    | none => Json.null
                    | some s => Json.str s),
     ("endingMessage", Json.str gs.endingMessage)]

def gameStateOfJson (j : Json) : Option GameState :=
  match j with
  | Json.obj fs => do
    let beats ← jget fs "storyBeats" >>= jarr
    let storyBeats ← decodeList beatOfJson beats
    let opts ← jget fs "currentOptions" >>= jarr
    let currentOptions ← decodeList jstr opts
    let inv ← jget fs "inventory" >>= jarr
    let inventory ← decodeList itemOfJson inv
    let gameEnded ← jget fs "gameEnded" >>= jbool
    let endingType : Option String ←
      match jget fs "endingType" with
      | some Json.null => pure none
      | some (Json.str s) => pure (some s)
      | _ => none
    let endingMessage ← jget fs "endingMessage" >>= jstr
    pure { storyBeats := storyBeats, currentOptions := currentOptions,
           inventory := inventory, gameEnded := gameEnded,
           endingType := endingType, endingMessage := endingMessage }
  | _ => none

/-- The record persisted under the single save key (StoryGame.tsx lines
861 to 866). -/
structure SavedGameState where
  gameState : GameState
  gameStarted : Bool
  storyTitle : String
  timestamp : Int
  deriving DecidableEq

def savedToJson (sv : SavedGameState) : Json :=
  Json.obj
    [("gameState", gameStateToJson sv.gameState),
     ("gameStarted", Json.bool sv.gameStarted),
     ("storyTitle", Json.str sv.storyTitle),
     ("timestamp", Json.num sv.timestamp)]

def savedOfJson (j : Json) : Option SavedGameState :=
  match j with
  | Json.obj fs => do
    let g ← jget fs "gameState"
    let gameState ← gameStateOfJson g
    let gameStarted ← jget fs "gameStarted" >>= jbool
    let storyTitle ← jget fs "storyTitle" >>= jstr
    let timestamp ← jget fs "timestamp" >>= jint
    pure { gameState := gameState, gameStarted := gameStarted,
           storyTitle := storyTitle, timestamp := timestamp }
  | _ => none

/-- The freshness window of loadGameState: seven days in milliseconds. -/
def sevenDaysMs : Int := 7 * 24 * 60 * 60 * 1000

/-- Embedding of saveGameState (StoryGame.tsx lines 868 to 884): the store
holds the serialized record stamped with the save-time clock reading. A
storage failure is caught in the source and leaves the store unchanged;
the embedding models the successful write. -/
def saveGameState (gs : GameState) (gameStarted : Bool) (storyTitle : String)
    (now : Int) : Option Json :=
  some (savedToJson
    { gameState := gs, gameStarted := gameStarted, storyTitle := storyTitle,
      timestamp := now })

/-- Embedding of loadGameState (StoryGame.tsx lines 886 to 906): returns
the loaded record and the store after the call. An empty store yields
null; a record older than the seven-day window is rejected and the entry
removed. The source casts the parsed JSON without validating its shape; a
tree the decoder rejects is one saveGameState never writes, and on such a
tree the source would return the cast object unchecked, a path no claim
exercises, so the embedding returns null and keeps the entry. Parse
exceptions cannot arise at the tree level. -/
def loadGameState (store : Option Json) (now : Int) :
    Option SavedGameState × Option Json :=
  match store with
  | none => (none, none)
  | some j =>
    match savedOfJson j with
    | none => (none, some j)
    | some sv =>
      if sv.timestamp < now - sevenDaysMs then (none, none)
      else (some sv, some j)

/-- Observable outcome of one call to the chat service: a successful
response with its content, a non-success HTTP status, or a network-level
failure. -/
inductive FetchOutcome where
  | success (content : String)
  | httpFailure (status : Nat)
  | networkFailure

/-- Embedding of checkForChapterEnd (LLMUtils.ts lines 450 to 512): a
non-success status returns false, a thrown transport error is caught and
returns false, and a successful response ends the chapter exactly when its
content, trimmed then uppercased, is YES. -/
def checkForChapterEnd (resp : FetchOutcome) : Bool :=
  match resp with
  | FetchOutcome.success c => decide (jsToUpper (jsTrim c) = "YES")
  | FetchOutcome.httpFailure _ => false
  | FetchOutcome.networkFailure => false

/-- Extraction the stream loop performs on a parsed line (LLMUtils.ts line
211): the content field of the message field, when both are present and
the content is a string. -/
def msgContent (j : Json) : Option String :=
  match j with
  | Json.obj fs =>
    match jget fs "message" with
    | some (Json.obj mfs) =>
      match jget mfs "content" with
      | some (Json.str s) => some s
      | _ => none
    | _ => none
  | _ => none

/-- Embedding of the line loop of fetchStoryContent (LLMUtils.ts lines 202
to 221) over the newline-delimited lines the transport delivered. The
JSON.parse builtin is passed in as an argument; an error value models the
exception it throws on malformed input. A blank line is skipped; a parse
exception propagates out of the loop and fails the whole call; a parsed
line without content is skipped; otherwise the content is delivered as a
chunk and accumulated. Returns the accumulated content and the chunks
delivered, in order. -/
def processStreamLines (parse : String → Except Unit Json) :
    List String → String → List String → Except Unit (String × List String)
  | [], acc, chunks => Except.ok (acc, chunks.reverse)
  | l :: rest, acc, chunks =>
    let cleaned := jsTrim l
    if cleaned = "" then processStreamLines parse rest acc chunks
    else
      match parse cleaned with
      | Except.error _ => Except.error ()
      | Except.ok j =>
        match msgContent j with
        | none => processStreamLines parse rest acc chunks
        | some c =>
          if c = "" then processStreamLines parse rest acc chunks
          else processStreamLines parse rest (acc ++ c) (c :: chunks)

def skipWs (cs : List Char) : List Char := cs.dropWhile jsWhitespace

/-- Parse of a JSON string literal without escape sequences. -/
def parseJsonString : List Char → Option (String × List Char)
  | '"' :: rest =>
    let body := rest.takeWhile (fun c => c ≠ '"')
    match rest.dropWhile (fun c => c ≠ '"') with
    | '"' :: rest2 => some (String.mk body, rest2)
    | _ => none
  | _ => none

mutual

/-- Fuel-bounded parse of a JSON value from the subset the stream protocol
uses: objects with string keys and string or object values. On this subset
it agrees with the JSON.parse builtin; everything else is rejected. -/
def parseJsonValue : Nat → List Char → Option (Json × List Char)
  | 0, _ => none
  | Nat.succ fuel, cs =>
    match skipWs cs with
    | '"' :: rest => (parseJsonString ('"' :: rest)).map (fun p => (Json.str p.fst, p.snd))
    | '\x7b' :: rest =>
      match skipWs rest with
      | '\x7d' :: rest2 => some (Json.obj [], rest2)
      | rest2 =>
        match parseJsonFields fuel rest2 with
        | some (fs, rest3) =>
          match skipWs rest3 with
          | '\x7d' :: rest4 => some (Json.obj fs, rest4)
          | _ => none
        | none => none
    | _ => none

/-- Fuel-bounded parse of one or more comma-separated key-value pairs. -/
def parseJsonFields : Nat → List Char → Option (List (String × Json) × List Char)
  | 0, _ => none
  | Nat.succ fuel, cs =>
    match parseJsonString (skipWs cs) with
    | some (key, rest) =>
      match skipWs rest with
      | ':' :: rest2 =>
        match parseJsonValue fuel rest2 with
        | some (v, rest3) =>
          match skipWs rest3 with
          | ',' :: rest4 =>
            match parseJsonFields fuel rest4 with
            | some (fs, rest5) => some ((key, v) :: fs, rest5)
            | none => none
          | rest4 => some ([(key, v)], rest4)
        | none => none
      | _ => none
    | none => none

end

/-- Model of JSON.parse on the object-and-string subset: a value followed
only by whitespace parses; anything else raises, modelled as an error.
The fuel bound exceeds any possible nesting depth of the input. -/
def jsonParseSubset (s : String) : Except Unit Json :=
  match parseJsonValue (s.data.length + 2) s.data with
  | some (j, rest) => if skipWs rest = [] then Except.ok j else Except.error ()
  | none => Except.error ()

/-- One browser tab: the component state and the persisted store. -/
structure World where
  gs : GameState
  store : Option Json

/-- Reachability of a world through the state writes of StoryGame.tsx,
starting from a fresh profile. Each constructor embeds one setGameState
call site or one store operation: the beat commit of generateNextStoryStep,
the option commits (both run only on a turn whose response did not end the
game), the item merge, the retroactive choice write on the last beat, the
consumable filter of handleItemUse, the reset (which also clears the
store), the save effect and the mount-time load. -/
inductive ReachW : World → Prop where
  | init : ReachW ⟨initialGameState, none⟩
  | commitBeat (w : World) (resp bid : String) (now : Int) : ReachW w →
      ReachW ⟨commitBeatState w.gs resp bid now, w.store⟩
  | commitOptions (w : World) (opts : List String) : ReachW w →
      w.gs.gameEnded = false →
      ReachW ⟨{ w.gs with currentOptions := opts }, w.store⟩
  | commitItems (w : World) (items : List Item) : ReachW w →
      w.gs.gameEnded = false →
      ReachW ⟨commitItemsState w.gs items, w.store⟩
  | selectChoice (w : World) (choice : String) : ReachW w →
      ReachW ⟨selectChoiceState w.gs choice, w.store⟩
  | useConsumable (w : World) (itemId : String) : ReachW w →
      ReachW ⟨{ w.gs with inventory := w.gs.inventory.filter (fun i => i.id ≠ itemId) }, w.store⟩
  | resetGame (w : World) : ReachW w → ReachW ⟨initialGameState, none⟩
  | save (w : World) (started : Bool) (title : String) (now : Int) : ReachW w →
      ReachW ⟨w.gs, saveGameState w.gs started title now⟩
  | load (w : World) (now : Int) (sv : SavedGameState) (store2 : Option Json) :
      ReachW w → loadGameState w.store now = (some sv, store2) →
      ReachW ⟨sv.gameState, store2⟩

/-- Chapter record (LLMUtils.ts lines 18 to 24). -/
structure Chapter where
  id : String
  title : String
  summary : String
  storyBeats : List StoryBeat
  timestamp : Int
  deriving DecidableEq

/-- Game state with chapters (LLMUtils.ts lines 26 to 34). -/
structure GameStateCh where
  storyBeats : List StoryBeat
  chapters : List Chapter
  currentOptions : List String
  inventory : List Item
  gameEnded : Bool
  endingType : Option String
  endingMessage : String
  deriving DecidableEq

def initialGameStateCh : GameStateCh :=
  { storyBeats := [], chapters := [], currentOptions := [], inventory := [],
    gameEnded := false, endingType := none, endingMessage := "" }

/-- Modelled from the spec: the reducer transition that folds accumulated
beats into a chapter is not among the repository files, which declare only
the chapter data type, checkForChapterEnd and generateChapterSummary; the
transition is modelled from the spec sections 3 and 4.4: append a chapter
owning a frozen copy of the beats being folded and reset storyBeats to
exactly the most recent beat, the one that triggered the check. For the
invariant that storyBeats holds only beats not yet folded, the triggering
beat stays out of the new chapter. -/
def applyChapterFold (st : GameStateCh) (cid title summary : String) (now : Int) :
    GameStateCh :=
  { st with
    chapters := st.chapters ++
      [{ id := cid, title := title, summary := summary,
         storyBeats := st.storyBeats.dropLast, timestamp := now }],
    storyBeats := st.storyBeats.getLast?.toList }

/-- Every beat id the state owns: those frozen in chapters, then those of
the live beat list. -/
def chBeatIds (st : GameStateCh) : List String :=
  (st.chapters.map (fun ch => ch.storyBeats.map StoryBeat.id)).flatten ++
    st.storyBeats.map StoryBeat.id

/-- Modelled from the spec: reachability of a chaptered state through the
beat-appending transition (section 4.5, with ids fresh by construction as
the source builds them from the clock and a random suffix) and the
chapter fold, which per section 4.4 runs only once at least three beats
have accumulated and the model answered YES to the chapter-end check. -/
inductive ReachCh : GameStateCh → Prop where
  | init : ReachCh initialGameStateCh
  | addBeat (st : GameStateCh) (b : StoryBeat) : ReachCh st →
      b.id ∉ chBeatIds st →
      ReachCh { st with storyBeats := st.storyBeats ++ [b] }
  | fold (st : GameStateCh) (cid title summary : String) (now : Int)
      (resp : FetchOutcome) : ReachCh st →
      3 ≤ st.storyBeats.length →
      checkForChapterEnd resp = true →
      ReachCh (applyChapterFold st cid title summary now)

def cexBeat : StoryBeat :=
  { id := "beat-1", storyText := "You enter the cave.", availableOptions := [],
    selectedOption := none, itemsFound := [], timestamp := 0 }

def cexState : GameState :=
  { storyBeats := [cexBeat], currentOptions := [], inventory := [],
    gameEnded := false, endingType := none, endingMessage := "" }

def cexPotion : Item :=
  { id := "item-1", name := "Potion", description := "Restores health",
    type := "consumable", usable := true }

/-- Concrete stale save record used as a witness input. -/
def staleSave : SavedGameState :=
  { gameState := initialGameState, gameStarted := true, storyTitle := "Quest",
    timestamp := 0 }

/-- Concrete ended-turn response used as a witness input. -/
def endedResponse : String := "**ENDING: NEGATIVE** The cave collapses."

/-- Predicate of claim C9: an ended state exposes no options. -/
def optionsInvariant (gs : GameState) : Prop :=
  gs.gameEnded = true → gs.currentOptions = []

/-! Helper lemmas about the marker scanner. -/

theorem matchCI_sound {pat cs m r : List Char} (h : matchCI pat cs = some (m, r)) :
    cs = m ++ r := by
  induction pat generalizing cs m r with
  | nil =>
    simp only [matchCI, Option.some.injEq, Prod.mk.injEq] at h
    simp [← h.1, ← h.2]
  | cons p ps ih =>
    cases cs with
    | nil => simp [matchCI] at h
    | cons c cs =>
      simp only [matchCI] at h
      split at h
      · cases hm : matchCI ps cs with
        | none => rw [hm] at h; exact absurd h (by simp)
        | some pr =>
          obtain ⟨m1, r1⟩ := pr
          rw [hm] at h
          simp only [Option.some.injEq, Prod.mk.injEq] at h
          obtain ⟨hm1, hr1⟩ := h
          subst hm1; subst hr1
          simpa using ih hm
      · exact absurd h (by simp)

theorem matchCI_lower {pat cs m r : List Char} (h : matchCI pat cs = some (m, r)) :
    m.map Char.toLower = pat := by
  induction pat generalizing cs m r with
  | nil =>
    simp only [matchCI, Option.some.injEq, Prod.mk.injEq] at h
    simp [← h.1]
  | cons p ps ih =>
    cases cs with
    | nil => simp [matchCI] at h
    | cons c cs =>
      simp only [matchCI] at h
      split at h
      · cases hm : matchCI ps cs with
        | none => rw [hm] at h; exact absurd h (by simp)
        | some pr =>
          obtain ⟨m1, r1⟩ := pr
          rw [hm] at h
          simp only [Option.some.injEq, Prod.mk.injEq] at h
          obtain ⟨hm1, hr1⟩ := h
          subst hm1
          rename_i hlow
          simp [ih hm, hlow]
      · exact absurd h (by simp)

theorem matchAnyCI_mem {ks : List (List Char)} {cs m r : List Char}
    (h : matchAnyCI ks cs = some (m, r)) :
    ∃ k ∈ ks, matchCI k cs = some (m, r) := by
  induction ks with
  | nil => simp [matchAnyCI] at h
  | cons k ks ih =>
    simp only [matchAnyCI] at h
    cases hk : matchCI k cs with
    | some pr => rw [hk] at h; exact ⟨k, by simp, by rw [hk, ← h]⟩
    | none =>
      rw [hk] at h
      obtain ⟨k2, hk2, hm⟩ := ih h
      exact ⟨k2, by simp [hk2], hm⟩

theorem matchAnyCI_sound {ks : List (List Char)} {cs m r : List Char}
    (h : matchAnyCI ks cs = some (m, r)) : cs = m ++ r := by
  obtain ⟨k, _, hm⟩ := matchAnyCI_mem h
  exact matchCI_sound hm

theorem markerAt_inv {cs m cap post : List Char}
    (h : markerAt cs = some (m, cap, post)) :
    cs = m ++ post ∧
      (cap.map Char.toLower = ("positive").data ∨
       cap.map Char.toLower = ("negative").data) := by
  unfold markerAt at h
  cases h1 : matchCI ("**").data cs with
  | none => rw [h1] at h; exact absurd h (by simp)
  | some p1 =>
    obtain ⟨s1, r1⟩ := p1
    rw [h1] at h; dsimp only at h
    cases h2 : matchAnyCI endingKeywords r1 with
    | none => rw [h2] at h; exact absurd h (by simp)
    | some p2 =>
      obtain ⟨kw, r2⟩ := p2
      rw [h2] at h; dsimp only at h
      cases h3 : matchCI (":").data r2 with
      | none => rw [h3] at h; exact absurd h (by simp)
      | some p3 =>
        obtain ⟨col, r3⟩ := p3
        rw [h3] at h; dsimp only at h
        cases h4 : matchAnyCI posNegWords (r3.dropWhile jsWhitespace) with
        | none => rw [h4] at h; exact absurd h (by simp)
        | some p4 =>
          obtain ⟨pn, r5⟩ := p4
          rw [h4] at h; dsimp only at h
          cases h5 : matchCI ("**").data r5 with
          | none => rw [h5] at h; exact absurd h (by simp)
          | some p5 =>
            obtain ⟨s2, r6⟩ := p5
            rw [h5] at h; dsimp only at h
            simp only [Option.some.injEq, Prod.mk.injEq] at h
            obtain ⟨hm, hcap, hpost⟩ := h
            subst hm; subst hcap; subst hpost
            constructor
            · have e1 := matchCI_sound h1
              have e2 := matchAnyCI_sound h2
              have e3 := matchCI_sound h3
              have e4 := matchAnyCI_sound h4
              have e5 := matchCI_sound h5
              have ews : r3.takeWhile jsWhitespace ++ r3.dropWhile jsWhitespace = r3 :=
                List.takeWhile_append_dropWhile jsWhitespace r3
              calc cs = s1 ++ r1 := e1
                _ = s1 ++ (kw ++ r2) := by rw [← e2]
                _ = s1 ++ (kw ++ (col ++ r3)) := by rw [← e3]
                _ = s1 ++ (kw ++ (col ++ (r3.takeWhile jsWhitespace ++
                      r3.dropWhile jsWhitespace))) := by rw [ews]
                _ = s1 ++ (kw ++ (col ++ (r3.takeWhile jsWhitespace ++ (pn ++ r5)))) := by
                      rw [← e4]
                _ = s1 ++ (kw ++ (col ++ (r3.takeWhile jsWhitespace ++ (pn ++ (s2 ++ r6))))) := by
                      rw [← e5]
                _ = s1 ++ (kw ++ (col ++ (r3.takeWhile jsWhitespace ++ (pn ++ s2)))) ++ r6 := by
                      simp [List.append_assoc]
            · obtain ⟨k, hk, hmk⟩ := matchAnyCI_mem h4
              have := matchCI_lower hmk
              simp only [posNegWords, List.mem_cons, List.mem_singleton] at hk
              rcases hk with hk | hk | hk
              · left; rw [this, hk]
              · right; rw [this, hk]
              · simp at hk

theorem findMarker_spec {cs pre m cap post : List Char}
    (h : findMarker cs = some (pre, m, cap, post)) :
    cs = pre ++ m ++ post ∧ markerAt (m ++ post) = some (m, cap, post) ∧
      ∀ i < pre.length, markerAt (cs.drop i) = none := by
  induction cs generalizing pre with
  | nil => simp [findMarker] at h
  | cons c rest ih =>
    rw [findMarker] at h
    cases hm : markerAt (c :: rest) with
    | some x =>
      obtain ⟨m1, cap1, post1⟩ := x
      rw [hm] at h
      simp only [Option.some.injEq, Prod.mk.injEq] at h
      obtain ⟨hpre, hm1, hcap, hpost⟩ := h
      subst hpre; subst hm1; subst hcap; subst hpost
      have hsound := (markerAt_inv hm).1
      refine ⟨by simpa using hsound, ?_, ?_⟩
      · rw [← hsound]; exact hm
      · intro i hi; simp at hi
    | none =>
      rw [hm] at h
      cases hf : findMarker rest with
      | none => rw [hf] at h; exact absurd h (by simp)
      | some y =>
        obtain ⟨pre1, m1, cap1, post1⟩ := y
        rw [hf] at h
        simp only [Option.some.injEq, Prod.mk.injEq] at h
        obtain ⟨hpre, hm1, hcap, hpost⟩ := h
        subst hm1; subst hcap; subst hpost
        obtain ⟨hdec, hat, hmin⟩ := ih hf
        subst hpre
        refine ⟨by simp [hdec], hat, ?_⟩
        intro i hi
        cases i with
        | zero => simpa using hm
        | succ i2 =>
          simp only [List.drop_succ_cons]
          exact hmin i2 (by simpa using hi)

/-! Round-trip lemmas for the persistence serialization. -/

theorem decodeList_inverse {a : Type} {g : a → Json} {f : Json → Option a}
    (hf : ∀ x, f (g x) = some x) (xs : List a) :
    decodeList f (xs.map g) = some xs := by
  induction xs with
  | nil => rfl
  | cons x xs ih => simp [decodeList, hf, ih]

theorem itemOfJson_itemToJson (it : Item) : itemOfJson (itemToJson it) = some it := rfl

theorem beatOfJson_beatToJson (b : StoryBeat) : beatOfJson (beatToJson b) = some b := by
  obtain ⟨id, stext, opts, sel, items, ts⟩ := b
  have h1 : decodeList jstr (opts.map Json.str) = some opts :=
    @decodeList_inverse String Json.str jstr (fun _ => rfl) opts
  have h2 : decodeList itemOfJson (items.map itemToJson) = some items :=
    decodeList_inverse itemOfJson_itemToJson items
  cases sel with
  | none => simp [beatToJson, beatOfJson, jget, jstr, jarr, jint, h1, h2]
  | some choice => simp [beatToJson, beatOfJson, jget, jstr, jarr, jint, h1, h2]

theorem gameStateOfJson_gameStateToJson (gs : GameState) :
    gameStateOfJson (gameStateToJson gs) = some gs := by
  obtain ⟨beats, opts, inv, ended, ety, emsg⟩ := gs
  have h1 : decodeList beatOfJson (beats.map beatToJson) = some beats :=
    decodeList_inverse beatOfJson_beatToJson beats
  have h2 : decodeList jstr (opts.map Json.str) = some opts :=
    @decodeList_inverse String Json.str jstr (fun _ => rfl) opts
  have h3 : decodeList itemOfJson (inv.map itemToJson) = some inv :=
    decodeList_inverse itemOfJson_itemToJson inv
  cases ety with
  | none => simp [gameStateToJson, gameStateOfJson, jget, jstr, jarr, jint, jbool, h1, h2, h3]
  | some t => simp [gameStateToJson, gameStateOfJson, jget, jstr, jarr, jint, jbool, h1, h2, h3]

theorem savedOfJson_savedToJson (sv : SavedGameState) :
    savedOfJson (savedToJson sv) = some sv := by
  obtain ⟨gs, started, title, ts⟩ := sv
  simp [savedToJson, savedOfJson, jget, jstr, jint, jbool, gameStateOfJson_gameStateToJson]

/-! Claim C2. -/

/-- Claim C2, amended: for every narrative text on which the ending-marker
regex matches, extraction sets gameEnded to true and endingType to the
lowercased polarity capture, the text decomposes with no data loss into
the untrimmed segment before the first match, the matched marker text and
the untrimmed segment after it, the returned narrative and ending message
are those two segments with surrounding whitespace trimmed, no earlier
position of the text carries a match, and the capture lowercases to
positive or negative. -/
theorem extractEnding_marker_spec (s : String) (pre m cap post : List Char)
    (h : findMarker s.data = some (pre, m, cap, post)) :
    (extractEnding s).gameEnded = true ∧
    (extractEnding s).endingType = some (String.mk (cap.map Char.toLower)) ∧
    (extractEnding s).storyText = String.mk (jsTrimList pre) ∧
    (extractEnding s).endingMessage = String.mk (jsTrimList post) ∧
    s.data = pre ++ m ++ post ∧
    (∀ i < pre.length, markerAt (s.data.drop i) = none) ∧
    (cap.map Char.toLower = ("positive").data ∨
     cap.map Char.toLower = ("negative").data) := by
  obtain ⟨hdec, hat, hmin⟩ := findMarker_spec h
  have hcap := (markerAt_inv hat).2
  refine ⟨?_, ?_, ?_, ?_, hdec, hmin, hcap⟩ <;> simp [extractEnding, h]

/-- Witness for claim C2 at a concrete mixed-case response. -/
theorem extractEnding_marker_spec_witness :
    (extractEnding "Tale.**The End: Positive** Done.").gameEnded = true ∧
    (extractEnding "Tale.**The End: Positive** Done.").endingType = some "positive" ∧
    (extractEnding "Tale.**The End: Positive** Done.").storyText = "Tale." ∧
    (extractEnding "Tale.**The End: Positive** Done.").endingMessage = "Done." := by
  have h := extractEnding_marker_spec "Tale.**The End: Positive** Done."
    ("Tale.").data ("**The End: Positive**").data ("Positive").data (" Done.").data
    (by decide)
  refine ⟨h.1, ?_, ?_, ?_⟩
  · rw [h.2.1]; decide
  · rw [h.2.2.1]; decide
  · rw [h.2.2.2.1]; decide

/-- Claim C2 counterexample: whitespace around the marker is trimmed away,
so the returned narrative is not everything before the marker and the
concatenation of narrative, marker and ending message differs from the
original text. -/
theorem extractEnding_partition_cex :
    (extractEnding "You win!\n**ENDING: POSITIVE** Congrats.").storyText ++
        "**ENDING: POSITIVE**" ++
        (extractEnding "You win!\n**ENDING: POSITIVE** Congrats.").endingMessage ≠
      "You win!\n**ENDING: POSITIVE** Congrats." ∧
    (extractEnding "You win!\n**ENDING: POSITIVE** Congrats.").storyText ≠
      "You win!\n" := by
  constructor <;> decide

/-! Claim C5. -/

/-- Claim C5: option extraction is total, returns at most three options,
every returned option is a non-empty trimmed suffix of a matching line
with its numbered or bulleted marker stripped, and a text with no matching
line yields the empty list, so any fallback options come from the caller
and never from the parser. -/
theorem extractOptions_spec (t : String) :
    (extractOptions t).length ≤ 3 ∧
    (∀ o ∈ extractOptions t, o ≠ "" ∧ ∃ l ∈ t.splitOn "\n",
        matchesOptionLine l = true ∧ o = jsTrim (stripOptionMarker l)) ∧
    ((∀ l ∈ t.splitOn "\n", matchesOptionLine l = false) → extractOptions t = []) := by
  refine ⟨?_, ?_, ?_⟩
  · unfold extractOptions
    exact List.length_take_le 3 _
  · intro o ho
    unfold extractOptions at ho
    have ho2 := List.take_subset 3 _ ho
    rw [List.mem_filter] at ho2
    obtain ⟨homap, hne⟩ := ho2
    rw [List.mem_map] at homap
    obtain ⟨l, hl, rfl⟩ := homap
    rw [List.mem_filter] at hl
    obtain ⟨hl2, hmatch⟩ := hl
    rw [List.mem_filter] at hl2
    exact ⟨by simpa using hne, l, hl2.1, hmatch, rfl⟩
  · intro hnone
    have hfil : ((t.splitOn "\n").filter (fun l => jsTrim l ≠ "")).filter
        (fun l => matchesOptionLine l) = [] := by
      rw [List.filter_eq_nil_iff]
      intro a ha
      have := hnone a (List.mem_of_mem_filter ha)
      simp [this]
    simp only [extractOptions]
    rw [hfil]
    rfl

/-! Claim C8. -/

/-- Claim C8: the chapter-end check returns true exactly when the call
succeeded and the response content, after trimming and uppercasing, is
YES; every other content and every transport failure or non-success
status yields false. -/
theorem checkForChapterEnd_yes_iff (r : FetchOutcome) :
    checkForChapterEnd r = true ↔
      ∃ c, r = FetchOutcome.success c ∧ jsToUpper (jsTrim c) = "YES" := by
  cases r with
  | success c => simp [checkForChapterEnd]
  | httpFailure status => simp [checkForChapterEnd]
  | networkFailure => simp [checkForChapterEnd]

/-! Claim C10. -/

/-- Claim C10: using an unusable item changes nothing and issues no
narrative call; using a usable consumable removes exactly the inventory
entries whose id equals the used item id, leaves every other field of the
state unchanged, and issues the narrative call; using a usable
non-consumable item leaves the whole state unchanged and issues the
call. -/
theorem handleItemUse_spec (st : GameState) (item : Item) :
    (item.usable = false → handleItemUse st item = (st, false)) ∧
    (item.usable = true → item.type = "consumable" →
      (handleItemUse st item).1 =
        { st with inventory := st.inventory.filter (fun i => i.id ≠ item.id) } ∧
      (handleItemUse st item).2 = true ∧
      (handleItemUse st item).1.storyBeats = st.storyBeats ∧
      (handleItemUse st item).1.currentOptions = st.currentOptions ∧
      (handleItemUse st item).1.gameEnded = st.gameEnded ∧
      (handleItemUse st item).1.endingType = st.endingType ∧
      (handleItemUse st item).1.endingMessage = st.endingMessage ∧
      (∀ i ∈ st.inventory, (i ∈ (handleItemUse st item).1.inventory ↔ i.id ≠ item.id))) ∧
    (item.usable = true → item.type ≠ "consumable" → handleItemUse st item = (st, true)) := by
  refine ⟨?_, ?_, ?_⟩
  · intro h; simp [handleItemUse, h]
  · intro hu ht
    have hform : handleItemUse st item =
        ({ st with inventory := st.inventory.filter (fun i => i.id ≠ item.id) }, true) := by
      simp [handleItemUse, hu, ht]
    rw [hform]
    refine ⟨rfl, rfl, rfl, rfl, rfl, rfl, rfl, ?_⟩
    intro i hi
    simp [List.mem_filter, hi]
  · intro hu ht; simp [handleItemUse, hu, ht]

/-! Claim C1. -/

/-- Claim C1, amended: the two follow-up operations of a successful turn
run sequentially in one try block. When the options call fails, the catch
handler installs the three fallback options and the inventory delta is
neither checked nor applied, leaving the rest of the state untouched; when
the options call succeeds, the options commit and the non-empty delta
commits on top of them, and a failed item check, which resolves to the
empty delta inside its own handler, leaves the committed options and the
rest of the state unchanged. On every such path, and on every turn whose
narrative call succeeded, no user-visible error is surfaced. -/
theorem runFollowups_spec (st : GameState) (opts : List String) (items : List Item)
    (resp bid : String) (now : Int) :
    runFollowups st (Except.error ()) items = { st with currentOptions := fallbackOptions } ∧
    runFollowups st (Except.ok opts) items =
      commitItemsState { st with currentOptions := opts } items ∧
    runFollowups st (Except.ok opts) [] = { st with currentOptions := opts } ∧
    (generateNextStoryStep st (Except.ok resp) (Except.error ()) items bid now).2 = none ∧
    (generateNextStoryStep st (Except.ok resp) (Except.ok opts) items bid now).2 = none := by
  refine ⟨rfl, rfl, ?_, ?_, ?_⟩
  · simp [runFollowups, commitItemsState]
  · simp only [generateNextStoryStep]
    split <;> rfl
  · simp only [generateNextStoryStep]
    split <;> rfl

/-- Claim C1 counterexample: in an execution where the options call fails
and the inventory delta would contain an item, the delta is not applied,
while the same delta in the execution whose options call succeeds is
applied, so the two follow-up operations are not independent. -/
theorem options_failure_blocks_items_cex :
    (runFollowups cexState (Except.error ()) [cexPotion]).inventory = [] ∧
    cexPotion ∉ (runFollowups cexState (Except.error ()) [cexPotion]).inventory ∧
    (runFollowups cexState (Except.ok ["Go on"]) [cexPotion]).inventory = [cexPotion] := by
  refine ⟨rfl, ?_, rfl⟩
  decide

/-! Claim C3. -/

/-- Claim C3, amended: in the stream loop a blank line is a no-op and a
parsed line whose message carries no content, or empty content, is
skipped with the stream continuing; but a non-blank line on which the
JSON parse raises propagates that exception, failing the entire narrative
call, instead of being skipped; a non-empty content line is delivered as
a chunk and accumulated. -/
theorem processStreamLines_spec (parse : String → Except Unit Json)
    (l : String) (rest : List String) (acc : String) (chunks : List String) :
    (jsTrim l = "" → processStreamLines parse (l :: rest) acc chunks =
        processStreamLines parse rest acc chunks) ∧
    (jsTrim l ≠ "" → parse (jsTrim l) = Except.error () →
        processStreamLines parse (l :: rest) acc chunks = Except.error ()) ∧
    (∀ j, jsTrim l ≠ "" → parse (jsTrim l) = Except.ok j → msgContent j = none →
        processStreamLines parse (l :: rest) acc chunks =
          processStreamLines parse rest acc chunks) ∧
    (∀ j c, jsTrim l ≠ "" → parse (jsTrim l) = Except.ok j →
        msgContent j = some c → c ≠ "" →
        processStreamLines parse (l :: rest) acc chunks =
          processStreamLines parse rest (acc ++ c) (c :: chunks)) := by
  refine ⟨?_, ?_, ?_, ?_⟩
  · intro hb
    simp [processStreamLines, hb]
  · intro hb hp
    simp [processStreamLines, hb, hp]
  · intro j hb hp hc
    simp [processStreamLines, hb, hp, hc]
  · intro j c hb hp hc hcne
    simp [processStreamLines, hb, hp, hc, hcne]

/-- Claim C3 counterexample: a malformed line fails the whole call even
though a later well-formed line carries content, while the well-formed
line alone streams its content; the malformed unit is not skipped. -/
theorem stream_parse_failure_aborts_cex :
    processStreamLines jsonParseSubset
      ["\x7boops", "\x7b\"message\":\x7b\"content\":\"Hello\"\x7d\x7d"] "" [] =
      Except.error () ∧
    processStreamLines jsonParseSubset
      ["\x7b\"message\":\x7b\"content\":\"Hello\"\x7d\x7d"] "" [] =
      Except.ok ("Hello", ["Hello"]) := by
  constructor <;> rfl

/-! Claim C6. -/

/-- Claim C6: saving the game state together with the started flag and the
story title, then loading it back at once, which is within the freshness
window, returns the saved record, whose gameState is equal to the state
that was saved, and leaves the stored entry in place. -/
theorem saveLoad_roundtrip (gs : GameState) (started : Bool) (title : String) (now : Int) :
    loadGameState (saveGameState gs started title now) now =
      (some { gameState := gs, gameStarted := started, storyTitle := title,
              timestamp := now },
       saveGameState gs started title now) := by
  have hfresh : ¬ (now < now - sevenDaysMs) := by
    simp only [sevenDaysMs]
    omega
  simp only [saveGameState, loadGameState, savedOfJson_savedToJson]
  simp [hfresh]

/-! Claim C7. -/

/-- Claim C7: loading a persisted save whose timestamp is older than the
seven-day freshness window returns null as if nothing were saved and
removes the stored entry. -/
theorem load_stale_clears (sv : SavedGameState) (now : Int)
    (h : sv.timestamp < now - sevenDaysMs) :
    loadGameState (some (savedToJson sv)) now = (none, none) := by
  simp only [loadGameState, savedOfJson_savedToJson]
  simp [h]

/-- Witness for claim C7: a save stamped at time zero loaded well past the
window is rejected and cleared. -/
theorem load_stale_clears_witness :
    loadGameState (some (savedToJson staleSave)) 1000000000000 = (none, none) :=
  load_stale_clears staleSave 1000000000000 (by decide)

/-! Claim C4. -/

theorem chBeatIds_addBeat (st : GameStateCh) (b : StoryBeat) :
    chBeatIds { st with storyBeats := st.storyBeats ++ [b] } = chBeatIds st ++ [b.id] := by
  simp [chBeatIds, List.append_assoc]

theorem chBeatIds_fold_eq (st : GameStateCh) (cid title summary : String) (now : Int)
    (hne : st.storyBeats ≠ []) :
    chBeatIds (applyChapterFold st cid title summary now) = chBeatIds st := by
  simp only [chBeatIds, applyChapterFold, List.map_append, List.flatten_append]
  rw [List.getLast?_eq_getLast _ hne]
  have hsplit : st.storyBeats.map StoryBeat.id =
      st.storyBeats.dropLast.map StoryBeat.id ++ [(st.storyBeats.getLast hne).id] := by
    conv_lhs => rw [← List.dropLast_append_getLast hne]
    simp
  rw [hsplit]
  simp [List.append_assoc]

theorem reachCh_nodup {st : GameStateCh} (h : ReachCh st) : (chBeatIds st).Nodup := by
  induction h with
  | init => simp [chBeatIds, initialGameStateCh]
  | addBeat st b hr hfresh ih =>
    rw [chBeatIds_addBeat]
    simp only [List.nodup_append, List.nodup_cons, List.nodup_nil, List.disjoint_singleton]
    exact ⟨ih, by simp, by simpa using hfresh⟩
  | fold st cid title summary now resp hr h3 hyes ih =>
    have hne : st.storyBeats ≠ [] := by
      intro hnil; rw [hnil] at h3; simp at h3
    rw [chBeatIds_fold_eq st cid title summary now hne]
    exact ih

theorem reachCh_beats_not_folded {st : GameStateCh} (h : ReachCh st) :
    ∀ b ∈ st.storyBeats, ∀ ch ∈ st.chapters, ∀ b2 ∈ ch.storyBeats, b.id ≠ b2.id := by
  intro b hb ch hch b2 hb2 heq
  have hnd := reachCh_nodup h
  unfold chBeatIds at hnd
  rw [List.nodup_append] at hnd
  have hdisj := hnd.2.2
  have h1 : b.id ∈ st.storyBeats.map StoryBeat.id := List.mem_map_of_mem _ hb
  have h2 : b2.id ∈ (st.chapters.map (fun ch => ch.storyBeats.map StoryBeat.id)).flatten := by
    rw [List.mem_flatten]
    exact ⟨ch.storyBeats.map StoryBeat.id, List.mem_map_of_mem _ hch,
      List.mem_map_of_mem _ hb2⟩
  exact hdisj h2 (heq ▸ h1)

/-- Claim C4: when a chapter is created from a state with at least three
accumulated beats and a chapter-end check that returned YES, the chapter
count grows by exactly one and the live beat list is reset to exactly the
most recent beat, the one that triggered the check; and in every reachable
chaptered state, the live beats are disjoint by id from every beat frozen
in a chapter, so storyBeats holds only beats not yet folded. The fold
transition is modelled from the spec because its reducer is not among the
repository files. -/
theorem chapterFold_spec :
    (∀ (st : GameStateCh) (cid title summary : String) (now : Int),
        3 ≤ st.storyBeats.length →
        ((applyChapterFold st cid title summary now).chapters.length =
            st.chapters.length + 1 ∧
         ∃ b, st.storyBeats.getLast? = some b ∧
           (applyChapterFold st cid title summary now).storyBeats = [b])) ∧
    (∀ st : GameStateCh, ReachCh st → ∀ b ∈ st.storyBeats, ∀ ch ∈ st.chapters,
        ∀ b2 ∈ ch.storyBeats, b.id ≠ b2.id) := by
  constructor
  · intro st cid title summary now h3
    have hne : st.storyBeats ≠ [] := by
      intro hnil; rw [hnil] at h3; simp at h3
    constructor
    · simp [applyChapterFold]
    · refine ⟨st.storyBeats.getLast hne, List.getLast?_eq_getLast _ hne, ?_⟩
      simp [applyChapterFold, List.getLast?_eq_getLast _ hne]
  · exact fun st h => reachCh_beats_not_folded h

/-! Claim C9. -/

theorem commitItemsState_frame (gs : GameState) (items : List Item) :
    (commitItemsState gs items).gameEnded = gs.gameEnded ∧
    (commitItemsState gs items).currentOptions = gs.currentOptions := by
  unfold commitItemsState
  split <;> simp

theorem selectChoiceState_frame (gs : GameState) (choice : String) :
    (selectChoiceState gs choice).gameEnded = gs.gameEnded ∧
    (selectChoiceState gs choice).currentOptions = gs.currentOptions := by
  unfold selectChoiceState
  cases gs.storyBeats.getLast? <;> simp

theorem loadGameState_some_inv {store : Option Json} {now : Int} {sv : SavedGameState}
    {store2 : Option Json} (h : loadGameState store now = (some sv, store2)) :
    ∃ j, store = some j ∧ savedOfJson j = some sv ∧ store2 = some j := by
  cases store with
  | none => simp [loadGameState] at h
  | some j =>
    cases hs : savedOfJson j with
    | none => simp [loadGameState, hs] at h
    | some sv2 =>
      by_cases hst : sv2.timestamp < now - sevenDaysMs
      · simp [loadGameState, hs, hst] at h
      · simp [loadGameState, hs, hst] at h
        obtain ⟨h1, h2⟩ := h
        exact ⟨j, rfl, by rw [hs, h1], h2.symm⟩

theorem reachW_inv {w : World} (h : ReachW w) :
    optionsInvariant w.gs ∧
      (∀ j, w.store = some j → ∀ sv, savedOfJson j = some sv →
        optionsInvariant sv.gameState) := by
  induction h with
  | init =>
    exact ⟨fun _ => rfl, by intro j hj; simp at hj⟩
  | commitBeat w resp bid now hr ih =>
    exact ⟨fun _ => rfl, ih.2⟩
  | commitOptions w opts hr hne ih =>
    refine ⟨?_, ih.2⟩
    intro hc
    simp only [World.gs] at hc ⊢
    have : w.gs.gameEnded = true := hc
    rw [hne] at this
    exact absurd this (by simp)
  | commitItems w items hr hne ih =>
    refine ⟨?_, ih.2⟩
    intro hc
    have hframe := commitItemsState_frame w.gs items
    rw [hframe.2]
    exact ih.1 (by rw [← hframe.1]; exact hc)
  | selectChoice w choice hr ih =>
    refine ⟨?_, ih.2⟩
    intro hc
    have hframe := selectChoiceState_frame w.gs choice
    rw [hframe.2]
    exact ih.1 (by rw [← hframe.1]; exact hc)
  | useConsumable w itemId hr ih =>
    exact ⟨fun hc => ih.1 hc, ih.2⟩
  | resetGame w hr ih =>
    exact ⟨fun _ => rfl, by intro j hj; simp at hj⟩
  | save w started title now hr ih =>
    refine ⟨ih.1, ?_⟩
    intro j hj sv hsv
    simp only [saveGameState, Option.some.injEq] at hj
    rw [← hj, savedOfJson_savedToJson, Option.some.injEq] at hsv
    rw [← hsv]
    exact ih.1
  | load w now sv store2 hr hload ih =>
    obtain ⟨j, hst, hdec, hst2⟩ := loadGameState_some_inv hload
    refine ⟨ih.2 j hst sv hdec, ?_⟩
    intro j2 hj2 sv2 hsv2
    rw [hst2, Option.some.injEq] at hj2
    exact ih.2 j hst sv2 (by rw [hj2]; exact hsv2)

/-- Claim C9: in every reachable world the current options are empty
whenever the game has ended. The beat commit that sets gameEnded also
clears currentOptions, the option, fallback and item commits run only on
turns whose response did not end the game, every other operation leaves
the pair untouched, and a loaded save restores a state that was itself
saved from a reachable state, so no operation adds options to an ended
game. -/
theorem gameEnded_no_options (w : World) (h : ReachW w)
    (hend : w.gs.gameEnded = true) : w.gs.currentOptions = [] :=
  (reachW_inv h).1 hend

/-- Witness for claim C9: the world reached by committing a beat whose
response carries a negative ending marker has ended and exposes no
options. -/
theorem gameEnded_no_options_witness :
    (commitBeatState initialGameState endedResponse "beat-1" 0).currentOptions = [] :=
  gameEnded_no_options
    ⟨commitBeatState initialGameState endedResponse "beat-1" 0, none⟩
    (ReachW.commitBeat ⟨initialGameState, none⟩ endedResponse "beat-1" 0 ReachW.init)
    (by decide)

end StoryQuest
